import Mathlib

/-!
Verification development for the export-analyzer parsing pipeline
(ZIP / file-list ingestion, message normalization, channel-name
resolution, and the summary aggregation engine).

The JavaScript source is shallowly embedded: JS strings become `String`
(operated on through their `List Char` data), JS `null`/`undefined`
become `Option`, JS `Date` instants become `Int` milliseconds, thrown
exceptions become `Except`, and the browser environment (date parsing,
the local timezone, the local calendar-date key) is passed in as
explicit function parameters.  Definitions follow the source functions
of `discordParser` line by line; definitions whose name ends in `Spec`
instead follow the specification's wording, for comparison.
-/

set_option maxHeartbeats 1000000

namespace DiscordAnalyzer

/-- JS whitespace (the `\s` class) together with the zero-width characters
U+200B..U+200D and U+FEFF that the tokenizer's separator class
`[\s​-‍﻿]` adds.  `\s` itself already contains U+FEFF. -/
def isJsSpace (c : Char) : Bool :=
  let n := c.toNat
  n == 32 || (decide (9 ≤ n) && decide (n ≤ 13)) || n == 0xa0 || n == 0x1680 ||
    (decide (0x2000 ≤ n) && decide (n ≤ 0x200d)) || n == 0x2028 || n == 0x2029 ||
    n == 0x202f || n == 0x205f || n == 0x3000 || n == 0xfeff

/-- Characters matched by the JS class `[\w~]` (ASCII word characters plus tilde). -/
def isWordTilde (c : Char) : Bool :=
  c.isAlphanum || c == '_' || c == '~'

/-- Model of `String.prototype.trim`: strip leading and trailing whitespace. -/
def trimJs (s : String) : String :=
  ⟨((s.data.dropWhile isJsSpace).reverse.dropWhile isJsSpace).reverse⟩

/-- Model of `str.toLowerCase()` (per-character ASCII lowering). -/
def lowerStr (s : String) : String :=
  ⟨s.data.map Char.toLower⟩

/-- Matcher for the anchored regular expression `^[c~]?\d{15,}$`:
an optional leading `c` or `~` followed by at least 15 digits. -/
def matchesIdRegex (cs : List Char) : Bool :=
  match cs with
  | [] => false
  | c :: rest =>
    if c == 'c' || c == '~' then
      decide (15 ≤ rest.length) && rest.all Char.isDigit
    else
      decide (15 ≤ cs.length) && cs.all Char.isDigit

/-- Source `looksLikeId(str)`: trim, then test `^[c~]?\d{15,}$`, or
length strictly greater than 16 and purely numeric (`^\d+$`). -/
def looksLikeId (s : String) : Bool :=
  let t := trimJs s
  matchesIdRegex t.data || (decide (16 < t.length) && t.data.all Char.isDigit)

/-- The predicate exactly as the specification words it, applied to the
string itself (no trimming): matches `^[c~]?\d{15,}$`, or is longer than
16 characters and purely numeric. -/
def looksLikeIdSpec (s : String) : Bool :=
  matchesIdRegex s.data || (decide (16 < s.length) && s.data.all Char.isDigit)

/-- Split a character list at every character satisfying `p`, keeping empty
pieces, as JS `String.prototype.split` does. The result is always nonempty. -/
def splitP (p : Char → Bool) : List Char → List (List Char)
  | [] => [[]]
  | c :: rest =>
    if p c then [] :: splitP p rest
    else
      match splitP p rest with
      | t :: ts => (c :: t) :: ts
      | [] => [[c]]

/-- Source `tokenize(text)` in `buildSummary`: lowercase, collapse
whitespace and zero-width characters, split on whitespace, and keep
tokens of length greater than 1.  Splitting on separator runs with empty
pieces dropped is exactly what `replace(/[\s...]+/g, ' ')` followed by
`split(/\s+/)` produces once length-0 tokens are filtered out. -/
def tokenize (s : String) : List String :=
  ((splitP isJsSpace (s.data.map Char.toLower)).filter
    (fun t => decide (1 < t.length))).map (fun t => (⟨t⟩ : String))

/-- One fuel-indexed step of the global scan for the regex `:[\w~]+:`:
at each `:` greedily take `[\w~]+`, require a closing `:`, emit the
match and resume after its closing colon; otherwise resume one
character later.  Fuel `cs.length` always suffices because every
recursive call consumes at least one character. -/
def scanEmojisF : Nat → List Char → List (List Char)
  | 0, _ => []
  | _ + 1, [] => []
  | fuel + 1, c :: rest =>
    if c == ':' then
      let run := rest.takeWhile isWordTilde
      let rest2 := rest.dropWhile isWordTilde
      match rest2 with
      | ':' :: rest3 =>
        if run.isEmpty then scanEmojisF fuel rest
        else (':' :: (run ++ [':'])) :: scanEmojisF fuel rest3
      | _ => scanEmojisF fuel rest
    else scanEmojisF fuel rest

/-- Source `(m.contents || '').match(/:[\w~]+:/g)` followed by
`e.toLowerCase()` on each match: the list of lowercased custom-emoji
matches of a message's contents. -/
def scanLower (s : String) : List String :=
  (scanEmojisF s.data.length s.data).map (fun cs => (⟨cs.map Char.toLower⟩ : String))

/-- Matcher for `^:[\w~]+:$` (the shape that tags emoji keys in the shared
frequency map). -/
def emojiShaped (s : String) : Bool :=
  let cs := s.data
  decide (3 ≤ cs.length) && cs.head? == some ':' && cs.getLast? == some ':' &&
    (cs.drop 1).dropLast.all isWordTilde

/-- The stopword set of `buildSummary`, verbatim. -/
def STOPWORDS : List String :=
  ["the", "a", "an", "and", "or", "but", "in", "on", "at", "to", "for", "of",
   "with", "by", "is", "it", "i", "you", "we", "they", "this", "that", "be",
   "are", "was", "were", "been", "have", "has", "had", "do", "does", "did",
   "will", "would", "could", "should", "can", "if", "as", "so", "my", "me",
   "your", "he", "she", "his", "her", "its", "just", "not", "no", "yes", "oh",
   "um", "uh", "im", "dont", "cant", "wont", "thats", "what", "when", "where",
   "who", "how", "why", "all", "each", "every", "some", "any", "from", "up",
   "out", "about", "into", "over", "after", "before", "between", "through",
   "during", "above", "below", "more", "most", "other", "than", "then", "them",
   "these", "those", "here", "there"]

/-- JS truthiness for an optional string: `null`/`undefined` and the empty
string are falsy. -/
def truthyS : Option String → Bool
  | none => false
  | some s => !(s == "")

/-- A normalized message (canonical `Message`).  `timestamp` is the stored
instant in milliseconds, already offset-corrected, or `none`
(`null`) when the raw value did not parse. `attachments` keeps only the
length of the normalized attachment array, the only thing the
aggregation reads. -/
structure Msg where
  timestamp : Option Int
  contents : String
  channelId : Option String
  guildId : Option String
  channelName : Option String
  attachments : Nat
deriving DecidableEq

/-- A `byChannel` rollup row (the fields the aggregation writes that the
claims mention: identity key, resolved display name, guild id, count). -/
structure ChannelRow where
  key : String
  channelName : Option String
  guildId : Option String
  count : Nat
deriving DecidableEq

/-- Browser-environment parameters of the aggregation: the fixed local
timezone offset in milliseconds, and `getLocalDateKey`, the local
calendar-date key for an instant. -/
structure Env where
  tz : Int
  dateKey : Int → String

/-- The raw timestamp field of a message after alias resolution
(`msg.Timestamp ?? msg.timestamp ?? msg.date`), the contents field after
alias resolution, and the length of the normalized attachments list. -/
structure RawMsg where
  ts : Option String
  contents : Option String
  attachCount : Nat
deriving DecidableEq

/-- Source constant `TZ_OFFSET_MS = TZ_OFFSET_HOURS * 60 * 60 * 1000` with
`TZ_OFFSET_HOURS = -5`. -/
def TZ_OFFSET_MS : Int := -5 * 60 * 60 * 1000

/-- Source `normalizeMessage(msg)`, timestamp part:
`const rawDate = ts ? new Date(ts) : null;`
`const timestamp = rawDate && !isNaN(rawDate.getTime()) ? new Date(rawDate.getTime() + TZ_OFFSET_MS) : null;`
`parseDate` stands for the environment's `new Date(string)` parser
(`none` = invalid date). Channel fields start out `null`. -/
def normalizeMessage (parseDate : String → Option Int) (r : RawMsg) : Msg :=
  { timestamp :=
      match r.ts with
      | none => none
      | some s => if s == "" then none else (parseDate s).map (fun t => t + TZ_OFFSET_MS)
  , contents := r.contents.getD ""
  , channelId := none
  , guildId := none
  , channelName := none
  , attachments := r.attachCount }

/-- Model of `key.replace(/^\D+/, '')`: strip any leading run of
non-digit characters. -/
def dropNonDigits (s : String) : String :=
  ⟨s.data.dropWhile (fun c => !c.isDigit)⟩

/-- The channel rollup key: `m.channelId ?? 'dm'`. -/
def chanKey (m : Msg) : String := m.channelId.getD "dm"

/-- Source expression
`result.channelIdToName?.[key] ?? (key && result.channelIdToName?.[key.replace(/^\D+/, '')])`.
When `key` is the empty string the second operand short-circuits to the
(non-nullish) empty string itself, which the chain then keeps. -/
def idFromIndex (idx : String → Option String) (key : String) : Option String :=
  match idx key with
  | some v => some v
  | none => if key == "" then some "" else idx (dropNonDigits key)

/-- Source `let displayName = idFromIndex ?? m.channelName`. -/
def d0Of (idx : String → Option String) (key : String) (cname : Option String) : Option String :=
  match idFromIndex idx key with
  | some v => some v
  | none => cname

/-- The display name a channel row is created with:
`idFromIndex ?? m.channelName`, then
`if (!m.guildId && displayName && looksLikeId(displayName)) displayName = null`. -/
def resolveDisplay (idx : String → Option String) (m : Msg) : Option String :=
  let d0 := d0Of idx (chanKey m) m.channelName
  if !(truthyS m.guildId) && truthyS d0 && looksLikeId (d0.getD "") then none else d0

/-- One step of the `byChannel` upsert: bump an existing row's count, or
create the row (capturing the display name from the first message seen
for that key). -/
def upsertChannel (idx : String → Option String) (rows : List ChannelRow) (m : Msg) :
    List ChannelRow :=
  let k := chanKey m
  if rows.any (fun r => r.key == k) then
    rows.map (fun r => if r.key == k then { r with count := r.count + 1 } else r)
  else
    rows ++ [{ key := k, channelName := resolveDisplay idx m, guildId := m.guildId, count := 1 }]

/-- The `byChannel` accumulation over the (timestamp-filtered) message pass,
in message order.  The engine finally sorts the rows by descending count,
which permutes rows but alters none of them; the claims are stated on the
rows themselves. -/
def byChannelFold (idx : String → Option String) (msgs : List Msg) : List ChannelRow :=
  msgs.foldl (upsertChannel idx) []

/-- JS `Math.round(w / n)` for natural `w` and positive natural `n`:
rounding half up, `round (w / n) = floor (w / n + 1 / 2) = (2w + n) / (2n)`
in exact natural division (`theorem jsRoundNat_eq_floor` below proves the
equation with the rational floor). -/
def jsRoundNat (w n : Nat) : Nat := (2 * w + n) / (2 * n)

/-- JS `date.getHours()` under a fixed local-timezone offset `tz` in
milliseconds. -/
def hourOfTs (tz t : Int) : Int := ((t + tz).emod 86400000) / 3600000

/-- JS `date.getDay()` (0 = Sunday) under a fixed local-timezone offset:
the Unix epoch fell on a Thursday (4). -/
def dowOfTs (tz t : Int) : Int := (((t + tz).fdiv 86400000) + 4).emod 7

/-- The validity filter opening `buildSummary`:
`result.messages.filter((m) => m.timestamp && !isNaN(m.timestamp.getTime()))`. -/
def validTs (m : Msg) : Bool := m.timestamp.isSome

/-- Token count of one message (`tokenize(m.contents).length`). -/
def msgWordLen (m : Msg) : Nat := (tokenize m.contents).length

/-- Running `totalWords` total: every token counts, stopwords included. -/
def totalWordsOf (msgs : List Msg) : Nat := (msgs.map msgWordLen).sum

/-- The count the shared word/emoji frequency map ends up holding for key
`w`: one per non-stopword token occurrence of `w` (whitespace
tokenization pass) plus one per lowercased emoji-regex match equal to
`w` (emoji scan pass), across the filtered messages. -/
def wordMapCount (msgs : List Msg) (w : String) : Nat :=
  (msgs.map (fun m =>
    (if STOPWORDS.contains w then 0 else (tokenize m.contents).count w)
      + (scanLower m.contents).count w)).sum

/-- The Summary's stats object, restricted to the fields the claims are
about.  The three temporal tables are represented as bucket-count
functions (`byHour` and `byDayOfWeek` are zero outside 0..23 / 0..6,
exactly as the pre-seeded fixed buckets never receive increments
there). -/
structure Stats where
  totalMessages : Nat
  totalWords : Nat
  avgWordsPerMessage : Nat
  attachmentCount : Nat
  byChannel : List ChannelRow
  byDay : String → Nat
  byHour : Int → Nat
  byDayOfWeek : Int → Nat
  wordMap : String → Nat

/-- Source `buildSummary(result)` over an already-assembled message list
and channel-id→name index: filter to messages with a valid timestamp,
then accumulate every aggregate in that single pass. -/
def buildSummary (env : Env) (idx : String → Option String) (raw : List Msg) : Stats :=
  let messages := raw.filter validTs
  { totalMessages := messages.length
  , totalWords := totalWordsOf messages
  , avgWordsPerMessage :=
      if messages.length = 0 then 0
      else jsRoundNat (totalWordsOf messages) messages.length
  , attachmentCount := (messages.map (fun m => m.attachments)).sum
  , byChannel := byChannelFold idx messages
  , byDay := fun d =>
      if d == "" then 0
      else messages.countP (fun m =>
        match m.timestamp with
        | some t => env.dateKey t == d
        | none => false)
  , byHour := fun h =>
      messages.countP (fun m =>
        match m.timestamp with
        | some t => hourOfTs env.tz t == h
        | none => false)
  , byDayOfWeek := fun h =>
      messages.countP (fun m =>
        match m.timestamp with
        | some t => dowOfTs env.tz t == h
        | none => false)
  , wordMap := fun w => wordMapCount messages w }

/-- A normalized channel-metadata record (`normalizeChannelMeta` output
fields the pipeline reads; `channelName` is never null, defaulting to
the literal string Unknown). -/
structure MetaRec where
  guildId : Option String
  channelId : Option String
  channelName : String
deriving DecidableEq

/-- Split a path on slashes keeping empty pieces and take the last piece:
JS `path.split('/').pop()` (never undefined, since split is never
empty). -/
def lastSegRaw (s : String) : String :=
  ⟨(splitP (fun c => c == '/') s.data).getLastD []⟩

/-- Segments of a path: JS `p.split('/').filter(Boolean)`. -/
def segsOf (s : String) : List String :=
  ((splitP (fun c => c == '/') s.data).filter (fun t => !t.isEmpty)).map
    (fun t => (⟨t⟩ : String))

/-- Join path segments with slashes (JS `arr.join('/')`). -/
def joinSlash : List String → String
  | [] => ""
  | [s] => s
  | s :: rest => s ++ "/" ++ joinSlash rest

/-- The per-message channel-field assignment of the message-file loop:
`m.channelId = meta.channelId ?? channelPath.split('/').pop();`
`m.guildId = meta.guildId;`
`if (!meta.guildId) m.channelName = (meta.channelName && !looksLikeId(meta.channelName)) ? meta.channelName : (result.channelIdToName[meta.channelId ?? m.channelId] ?? null);`
`else m.channelName = meta.channelName ?? m.channelId;`
`meta` is `none` when no metadata resolved for the channel path (the
source's empty-object default, whose field reads are all undefined). -/
def attachMetaFields (meta : Option MetaRec) (idx : String → Option String)
    (channelPath : String) (m : Msg) : Msg :=
  let cid : String := (meta.bind (fun mt => mt.channelId)).getD (lastSegRaw channelPath)
  let gid : Option String := meta.bind (fun mt => mt.guildId)
  let cname : Option String :=
    if !(truthyS gid) then
      match meta with
      | some mt =>
        if !(mt.channelName == "") && !(looksLikeId mt.channelName) then some mt.channelName
        else idx cid
      | none => idx cid
    else
      match meta with
      | some mt => some mt.channelName
      | none => some cid
  { m with channelId := some cid, guildId := gid, channelName := cname }

/-- Pointwise update of a string-keyed map (JS object property
assignment). -/
def updateF (f : String → Option String) (k v : String) : String → Option String :=
  fun x => if x == k then some v else f x

/-- Pointwise update of the path→metadata map. -/
def updateM (f : String → Option MetaRec) (k : String) (v : MetaRec) :
    String → Option MetaRec :=
  fun x => if x == k then some v else f x

/-- The mutable accumulator the metadata pass fills: the path→metadata
map and the channel-id→name index. -/
structure MetaState where
  metaByPath : String → Option MetaRec
  idx : String → Option String

/-- Processing of one successfully parsed metadata file (`parseZip`
metadata loop body): record the metadata under its channel path, and for
guild-less channels with a truthy channel id and a usable (non-ID-shaped,
non-Unknown) name, seed the id→name index under the channel id and,
when different, under the path's final segment. -/
def applyMeta (st : MetaState) (channelPath : String) (meta : MetaRec) : MetaState :=
  let mbp := updateM st.metaByPath channelPath meta
  let idx1 :=
    match meta.channelId with
    | some cid =>
      if !(truthyS meta.guildId) && !(cid == "") && !(meta.channelName == "") &&
          !(looksLikeId meta.channelName) && !(meta.channelName == "Unknown") then
        let i1 := updateF st.idx cid meta.channelName
        let pid := lastSegRaw channelPath
        if !(pid == "") && !(pid == cid) then updateF i1 pid meta.channelName else i1
      else st.idx
    | none => st.idx
  { metaByPath := mbp, idx := idx1 }

/-- The metadata-file loop: each entry is a channel path together with
the outcome of reading and JSON-parsing the file (`Except.error` models a
thrown exception, caught and skipped by the loop's try/catch). -/
def processMetas (metas : List (String × Except Unit MetaRec)) : MetaState :=
  metas.foldl
    (fun st pr =>
      match pr.2 with
      | Except.error _ => st
      | Except.ok meta => applyMeta st pr.1 meta)
    { metaByPath := fun _ => none, idx := fun _ => none }

/-- Source `isMessageArray(data)`: a non-empty array whose first element
carries a contents or a timestamp field. -/
def isMessageArray (data : List RawMsg) : Bool :=
  match data with
  | [] => false
  | r :: _ => r.contents.isSome || r.ts.isSome

/-- The message-file loop: for each channel path and read/parse outcome,
a thrown exception (`Except.error`) or a shape mismatch skips the file;
otherwise every element is normalized, gets its channel fields attached
and is appended to the corpus. -/
def processMsgFiles (parseDate : String → Option Int) (st : MetaState)
    (files : List (String × Except Unit (List RawMsg))) : List Msg :=
  files.foldl
    (fun acc pr =>
      match pr.2 with
      | Except.error _ => acc
      | Except.ok data =>
        if isMessageArray data then
          acc ++ data.map (fun r =>
            attachMetaFields (st.metaByPath pr.1) st.idx pr.1 (normalizeMessage parseDate r))
        else acc)
    []

/-- Application of the global channel-name index file read at the end of
the parse: a list of id→name assignments layered over the names inferred
from metadata. -/
def applyIndexUpdates (idx : String → Option String) (ups : List (String × String)) :
    String → Option String :=
  ups.foldl (fun f pr => updateF f pr.1 pr.2) idx

/-- The whole parse pipeline after file classification: metadata pass,
message pass, global-index override, then `buildSummary`. -/
def parsePipeline (env : Env) (parseDate : String → Option Int)
    (metas : List (String × Except Unit MetaRec))
    (msgFiles : List (String × Except Unit (List RawMsg)))
    (indexUpdates : List (String × String)) : Stats :=
  let st := processMetas metas
  buildSummary env (applyIndexUpdates st.idx indexUpdates)
    (processMsgFiles parseDate st msgFiles)

/-- Path normalization at the top of the `parseFileList` classification
loop: `path.replace(/\\/g, '/').replace(/^\/+/, '')`. -/
def normalizePath (s : String) : String :=
  ⟨(s.data.map (fun c => if c == '\\' then '/' else c)).dropWhile (fun c => c == '/')⟩

/-- Case-insensitive `.json` extension test
(`p.toLowerCase().endsWith('.json')`). -/
def hasJsonExt (p : String) : Bool :=
  ".json".data.isSuffixOf (lowerStr p).data

/-- Index of the first occurrence of `needle` in `hay`
(JS `hay.indexOf(needle)` as an `Option`). -/
def firstSubIdx (needle : List Char) : List Char → Option Nat
  | [] => if needle.isEmpty then some 0 else none
  | c :: rest =>
    if needle.isPrefixOf (c :: rest) then some 0
    else (firstSubIdx needle rest).map (fun i => i + 1)

/-- The primary channel-path assignment of the `parseFileList`
classification (the if/else-if chain over a normalized path already known
to end in `.json`): `messages/`-rooted paths of depth at least 3, then
paths containing `messages/` anywhere, then bare two-segment paths. -/
def primaryChannelPath (p : String) : Option String :=
  let lp := lowerStr p
  let parts := segsOf p
  if decide (3 ≤ parts.length) && lowerStr (parts.headD "") == "messages" then
    some (joinSlash parts.dropLast)
  else
    match firstSubIdx "messages/".data lp.data with
    | some i =>
      if decide (2 ≤ parts.length) then
        let segs := segsOf ⟨p.data.drop i⟩
        if decide (2 ≤ segs.length) then some (joinSlash segs.dropLast) else none
      else if parts.length == 2 then some (parts.headD "") else none
    | none => if parts.length == 2 then some (parts.headD "") else none

/-- The message candidates produced by the primary classification scan:
every `.json` file that received a channel path, in input order, as
(normalized path, channel path) pairs. -/
def primaryCandidates (paths : List String) : List (String × String) :=
  paths.filterMap (fun path =>
    let p := normalizePath path
    if hasJsonExt p then (primaryChannelPath p).map (fun cp => (p, cp)) else none)

/-- The permissive fallback scan (`parseFileList`, zero-candidate case):
any file whose name lowercases to `messages.json`; the channel path is
the parent directory for paths of depth at least 2, otherwise the first
segment (the file name itself), or the literal `unknown` if even that is
empty. -/
def fallbackCandidates (paths : List String) : List (String × String) :=
  paths.filterMap (fun path =>
    let p := normalizePath path
    let parts := segsOf p
    let name := parts.getLastD ""
    if lowerStr name == "messages.json" then
      some (p,
        if decide (2 ≤ parts.length) then joinSlash parts.dropLast
        else if parts.headD "" == "" then "unknown" else parts.headD "")
    else none)

/-- The final message-candidate list of the `parseFileList` classifier:
the primary scan's candidates, or, when it found none, the fallback
scan's. -/
def messageCandidates (paths : List String) : List (String × String) :=
  let prim := primaryCandidates paths
  if prim.isEmpty then fallbackCandidates paths else prim

/-- The fallback scan exactly as the claim words it: any file named
exactly `messages.json` (case-sensitively), with its parent directory as
the channel path. -/
def fallbackCandidatesSpec (paths : List String) : List (String × String) :=
  paths.filterMap (fun path =>
    let p := normalizePath path
    let parts := segsOf p
    if parts.getLastD "" == "messages.json" then
      some (p, joinSlash parts.dropLast)
    else none)

/-- The fallback scan as amended: the name comparison is
case-insensitive, and a root-level file (a single-segment path) uses the
file name itself as its channel path. -/
def fallbackCandidatesSpecAmended (paths : List String) : List (String × String) :=
  paths.filterMap (fun path =>
    let p := normalizePath path
    let parts := segsOf p
    if lowerStr (parts.getLastD "") == "messages.json" then
      some (p,
        if decide (2 ≤ parts.length) then joinSlash parts.dropLast else parts.getLastD "")
    else none)

/-- The percent values the `parseZip` message loop reports: at every
fifth file and at the last one, `10 + floor(70 * (i + 1) / n)`.
`rep i` says whether iteration `i` reached its report (files skipped by
`continue` or by a thrown exception do not report). -/
def zipLoopPercents (n : Nat) (rep : Nat → Bool) : List Nat :=
  (((List.range n).filter (fun i => rep i && ((i + 1) % 5 == 0 || i == n - 1))).map
    (fun i => 10 + 70 * (i + 1) / n))

/-- The full `onProgress` percent sequence of one `parseZip` run:
0 (opening), 5 (scanning), 10 (after metadata), the message-loop
reports, 80 (building stats), 95 (finalizing). -/
def parseZipTrace (n : Nat) (rep : Nat → Bool) : List Nat :=
  [0, 5, 10] ++ zipLoopPercents n rep ++ [80, 95]

/-- The percent values the `parseFileList` metadata loop reports: at
every fifth file, `min(5, 5 * (mi + 1) / totalMeta)` (real division). -/
def flMetaPercents (mTot : Nat) (rep : Nat → Bool) : List ℚ :=
  (((List.range mTot).filter (fun i => rep i && (i + 1) % 5 == 0)).map
    (fun (i : Nat) => min 5 ((5 * ((i : ℚ) + 1)) / (mTot : ℚ))))

/-- The percent values the `parseFileList` message loop reports: at every
tenth file, `5 + floor(80 * (mi + 1) / totalMsg)`. -/
def flMsgPercents (nTot : Nat) (rep : Nat → Bool) : List ℚ :=
  (((List.range nTot).filter (fun i => rep i && (i + 1) % 10 == 0)).map
    (fun i => (5 : ℚ) + ((80 * (i + 1) / nTot : ℕ) : ℚ)))

/-- The full `onProgress` percent sequence of one `parseFileList` run:
0 (reading files), the metadata-loop reports, 5 (reading messages), the
message-loop reports, 85 (building stats). -/
def parseFileListTrace (mTot nTot : Nat) (repM repN : Nat → Bool) : List ℚ :=
  [0] ++ flMetaPercents mTot repM ++ [5] ++ flMsgPercents nTot repN ++ [85]

/-! Concrete fixtures used by witnesses and counterexamples. -/

/-- A concrete environment: UTC timezone, constant date key. -/
def env0 : Env := { tz := 0, dateKey := fun _ => "1970-01-01" }

/-- The empty channel-id→name index. -/
def idx0 : String → Option String := fun _ => none

/-- A message whose raw timestamp failed to parse. -/
def mNull : Msg :=
  { timestamp := none, contents := "hello world", channelId := none, guildId := none,
    channelName := none, attachments := 0 }

/-- A timestamped two-word message. -/
def mTwoWords : Msg :=
  { timestamp := some 0, contents := "ab cd", channelId := none, guildId := none,
    channelName := none, attachments := 0 }

/-- An index that names channel 42 team-chat. -/
def idxTeam : String → Option String :=
  fun k => if k == "42" then some "team-chat" else none

/-- An index whose name for channel 42 is itself ID-shaped. -/
def idxIdName : String → Option String :=
  fun k => if k == "42" then some "123456789012345678" else none

/-- A DM message in channel 42 whose per-message default name is the
literal id. -/
def mCh42 : Msg :=
  { timestamp := some 0, contents := "", channelId := some "42", guildId := none,
    channelName := some "42", attachments := 0 }

/-- A DM message whose only available name is its ID-shaped channel id. -/
def mDmId : Msg :=
  { timestamp := some 0, contents := "", channelId := some "123456789012345678",
    guildId := none, channelName := some "123456789012345678", attachments := 0 }

/-- A message with one standalone and one embedded occurrence of the
custom emoji `:aa:`. -/
def mEmojiMixed : Msg :=
  { timestamp := some 0, contents := ":aa: x:aa:x", channelId := none, guildId := none,
    channelName := none, attachments := 0 }

/-- A message with exactly one standalone occurrence of `:aa:`. -/
def mEmojiOnce : Msg :=
  { timestamp := some 0, contents := ":aa: hi", channelId := none, guildId := none,
    channelName := none, attachments := 0 }

/-- A concrete date parser recognizing exactly the instant of the
specification's timezone example (2024-01-01T05:00:00Z in epoch
milliseconds). -/
def pdExample : String → Option Int :=
  fun s => if s == "2024-01-01T05:00:00Z" then some 1704085200000 else none

/-- A raw message carrying the example timestamp. -/
def rawGood : RawMsg := { ts := some "2024-01-01T05:00:00Z", contents := some "hi", attachCount := 0 }

/-- A raw message carrying an unparseable timestamp. -/
def rawBad : RawMsg := { ts := some "not-a-date", contents := some "hi", attachCount := 0 }

/-! Helper lemmas about the `byChannel` accumulation. -/

/-- Bumping the count of the rows keyed `k` commutes with looking the key
up: the found row is the old one with its count bumped. -/
theorem find_map_bump (rows : List ChannelRow) (k : String) :
    ((rows.map (fun r => if r.key == k then { r with count := r.count + 1 } else r)).find?
      (fun r => r.key == k)) =
    (rows.find? (fun r => r.key == k)).map (fun r => { r with count := r.count + 1 }) := by
  induction rows with
  | nil => rfl
  | cons r rs ih =>
    rw [List.map_cons]
    by_cases h : (r.key == k) = true
    · rw [if_pos h,
        List.find?_cons_of_pos (p := fun (r : ChannelRow) => r.key == k) _
          (show (({ r with count := r.count + 1 } : ChannelRow).key == k) = true from h),
        List.find?_cons_of_pos (p := fun (r : ChannelRow) => r.key == k) _ h]
      rfl
    · rw [if_neg h,
        List.find?_cons_of_neg (p := fun (r : ChannelRow) => r.key == k) _ h,
        List.find?_cons_of_neg (p := fun (r : ChannelRow) => r.key == k) _ h]
      exact ih

/-- Bumping rows keyed `kk` does not affect a lookup for a different key. -/
theorem find_map_bump_ne (rows : List ChannelRow) (k kk : String) (h : (kk == k) = false) :
    ((rows.map (fun r => if r.key == kk then { r with count := r.count + 1 } else r)).find?
      (fun r => r.key == k)) =
    rows.find? (fun r => r.key == k) := by
  induction rows with
  | nil => rfl
  | cons r rs ih =>
    rw [List.map_cons]
    by_cases hr : (r.key == kk) = true
    · have hk : ¬ (r.key == k) = true := by
        have hrk : r.key = kk := by simpa using hr
        simp [hrk, h]
      rw [if_pos hr,
        List.find?_cons_of_neg (p := fun (r : ChannelRow) => r.key == k) _
          (show ¬ (({ r with count := r.count + 1 } : ChannelRow).key == k) = true from hk),
        List.find?_cons_of_neg (p := fun (r : ChannelRow) => r.key == k) _ hk]
      exact ih
    · rw [if_neg hr]
      by_cases hk : (r.key == k) = true
      · rw [List.find?_cons_of_pos (p := fun (r : ChannelRow) => r.key == k) _ hk,
          List.find?_cons_of_pos (p := fun (r : ChannelRow) => r.key == k) _ hk]
      · rw [List.find?_cons_of_neg (p := fun (r : ChannelRow) => r.key == k) _ hk,
          List.find?_cons_of_neg (p := fun (r : ChannelRow) => r.key == k) _ hk]
        exact ih

/-- An upsert for a message of a different channel leaves a key's lookup
unchanged. -/
theorem find_upsert_ne (idx : String → Option String) (rows : List ChannelRow) (m : Msg)
    (k : String) (h : (chanKey m == k) = false) :
    (upsertChannel idx rows m).find? (fun r => r.key == k) =
      rows.find? (fun r => r.key == k) := by
  by_cases ha : rows.any (fun r => r.key == chanKey m) = true
  · simp only [upsertChannel, ha, if_true]
    exact find_map_bump_ne rows k (chanKey m) h
  · have ha2 : rows.any (fun r => r.key == chanKey m) = false := by simpa using ha
    simp only [upsertChannel, ha2, Bool.false_eq_true, if_false]
    rw [List.find?_append]
    have hs : List.find? (fun (r : ChannelRow) => r.key == k)
        [({ key := chanKey m, channelName := resolveDisplay idx m, guildId := m.guildId,
            count := 1 } : ChannelRow)] = none := by
      rw [List.find?_cons_of_neg (p := fun (r : ChannelRow) => r.key == k) _ (by simp [h])]
      rfl
    rw [hs, Option.or_none]

/-- An upsert for a message of the looked-up channel, when a row for it
already exists, bumps exactly that row's count. -/
theorem find_upsert_hit (idx : String → Option String) (acc : List ChannelRow) (m : Msg)
    (k : String) (r : ChannelRow) (hk : (chanKey m == k) = true)
    (h : acc.find? (fun r => r.key == k) = some r) :
    (upsertChannel idx acc m).find? (fun r => r.key == k) =
      some { r with count := r.count + 1 } := by
  have hkeq : chanKey m = k := by simpa using hk
  have hpr : (r.key == k) = true := by
    have h2 := List.find?_some (p := fun (r : ChannelRow) => r.key == k) h
    simpa using h2
  have hany : acc.any (fun r => r.key == chanKey m) = true := by
    rw [List.any_eq_true]
    exact ⟨r, List.mem_of_find?_eq_some h, by rw [hkeq]; exact hpr⟩
  simp only [upsertChannel, hany, if_true]
  rw [hkeq, find_map_bump, h]
  rfl

/-- An upsert for a message of the looked-up channel, when no row for it
exists yet, creates its row from that message. -/
theorem find_upsert_miss (idx : String → Option String) (acc : List ChannelRow) (m : Msg)
    (k : String) (hk : (chanKey m == k) = true)
    (h : acc.find? (fun r => r.key == k) = none) :
    (upsertChannel idx acc m).find? (fun r => r.key == k) =
      some { key := chanKey m, channelName := resolveDisplay idx m, guildId := m.guildId,
             count := 1 } := by
  have hkeq : chanKey m = k := by simpa using hk
  have hany : acc.any (fun r => r.key == chanKey m) = false := by
    rw [← Bool.not_eq_true, List.any_eq_true]
    rintro ⟨r, hmem, hpred⟩
    rw [hkeq] at hpred
    exact List.find?_eq_none.mp h r hmem hpred
  simp only [upsertChannel, hany, Bool.false_eq_true, if_false]
  rw [List.find?_append, h]
  rw [List.find?_cons_of_pos (p := fun (r : ChannelRow) => r.key == k) _ hk]
  rfl

/-- Folding further messages over an accumulator that already holds a row
for key `k` bumps that row's count once per further message of that
channel. -/
theorem foldl_upsert_find_some (idx : String → Option String) (k : String) :
    ∀ (msgs : List Msg) (acc : List ChannelRow) (r : ChannelRow),
      acc.find? (fun r => r.key == k) = some r →
      ((msgs.foldl (upsertChannel idx) acc).find? (fun r => r.key == k)) =
        some { r with count := r.count + msgs.countP (fun x => chanKey x == k) } := by
  intro msgs
  induction msgs with
  | nil =>
    intro acc r h
    simpa using h
  | cons m ms ih =>
    intro acc r h
    rw [List.foldl_cons]
    by_cases hk : (chanKey m == k) = true
    · have hup := find_upsert_hit idx acc m k r hk h
      rw [ih _ _ hup]
      have hc : List.countP (fun x => chanKey x == k) (m :: ms) =
          List.countP (fun x => chanKey x == k) ms + 1 :=
        List.countP_cons_of_pos _ ms hk
      rw [hc]
      have : r.count + 1 + List.countP (fun x => chanKey x == k) ms =
          r.count + (List.countP (fun x => chanKey x == k) ms + 1) := by omega
      rw [this]
    · have hup : (upsertChannel idx acc m).find? (fun r => r.key == k) = some r := by
        rw [find_upsert_ne idx acc m k (by simpa using hk)]
        exact h
      rw [ih _ _ hup]
      have hc : List.countP (fun x => chanKey x == k) (m :: ms) =
          List.countP (fun x => chanKey x == k) ms :=
        List.countP_cons_of_neg _ ms hk
      rw [hc]

/-- Folding messages over an accumulator with no row for key `k` creates
the row from the first message of that channel and counts all of them. -/
theorem foldl_upsert_find_none (idx : String → Option String) (k : String) :
    ∀ (msgs : List Msg) (acc : List ChannelRow),
      acc.find? (fun r => r.key == k) = none →
      ((msgs.foldl (upsertChannel idx) acc).find? (fun r => r.key == k)) =
        (msgs.find? (fun x => chanKey x == k)).map
          (fun m => { key := k, channelName := resolveDisplay idx m, guildId := m.guildId,
                      count := msgs.countP (fun x => chanKey x == k) }) := by
  intro msgs
  induction msgs with
  | nil =>
    intro acc h
    simpa using h
  | cons m ms ih =>
    intro acc h
    rw [List.foldl_cons]
    by_cases hk : (chanKey m == k) = true
    · have hkeq : chanKey m = k := by simpa using hk
      have hup := find_upsert_miss idx acc m k hk h
      rw [foldl_upsert_find_some idx k ms _ _ hup]
      rw [List.find?_cons_of_pos (p := fun (x : Msg) => chanKey x == k) _ hk]
      have hc : List.countP (fun x => chanKey x == k) (m :: ms) =
          List.countP (fun x => chanKey x == k) ms + 1 :=
        List.countP_cons_of_pos _ ms hk
      simp [hc, hkeq, Nat.add_comm]
    · have hup : (upsertChannel idx acc m).find? (fun r => r.key == k) = none := by
        rw [find_upsert_ne idx acc m k (by simpa using hk)]
        exact h
      rw [ih _ hup]
      rw [List.find?_cons_of_neg (p := fun (x : Msg) => chanKey x == k) _ hk]
      have hc : List.countP (fun x => chanKey x == k) (m :: ms) =
          List.countP (fun x => chanKey x == k) ms :=
        List.countP_cons_of_neg _ ms hk
      rw [hc]

/-- The `byChannel` row for key `k`: created from the first filtered
message with that channel key, counting all of them. -/
theorem byChannel_find (idx : String → Option String) (msgs : List Msg) (k : String) :
    (byChannelFold idx msgs).find? (fun r => r.key == k) =
    (msgs.find? (fun x => chanKey x == k)).map
      (fun m => { key := k, channelName := resolveDisplay idx m, guildId := m.guildId,
                  count := msgs.countP (fun x => chanKey x == k) }) := by
  unfold byChannelFold
  exact foldl_upsert_find_none idx k msgs [] rfl

/-- The natural-division model of `Math.round(w / n)` agrees with the
rational rounding `floor (w / n + 1 / 2)` whenever `n` is nonzero. -/
theorem jsRoundNat_eq_floor (w n : Nat) (h : n ≠ 0) :
    (jsRoundNat w n : ℤ) = ⌊(w : ℚ) / (n : ℚ) + 1 / 2⌋ := by
  have hn : ((n : ℚ)) ≠ 0 := Nat.cast_ne_zero.mpr h
  have harg : (w : ℚ) / (n : ℚ) + 1 / 2 = ((2 * w + n : ℕ) : ℚ) / ((2 * n : ℕ) : ℚ) := by
    push_cast
    field_simp
    ring
  rw [harg, Rat.floor_natCast_div_natCast, jsRoundNat]
  exact (Int.ofNat_tdiv _ _).symm

/-- No stopword is emoji-shaped (stopwords are plain letter words), so the
token-pass guard never suppresses an emoji key. -/
theorem stopwords_not_emojiShaped : STOPWORDS.all (fun w => !(emojiShaped w)) = true := by
  decide

/-- An emoji-shaped key is not a stopword. -/
theorem emojiShaped_not_stopword (e : String) (h : emojiShaped e = true) :
    STOPWORDS.contains e = false := by
  rw [← Bool.not_eq_true, List.contains_eq_any_beq, List.any_eq_true]
  rintro ⟨w, hmem, hbeq⟩
  have hew : e = w := by simpa using hbeq
  have hall := List.all_eq_true.mp stopwords_not_emojiShaped w hmem
  rw [← hew, h] at hall
  exact absurd hall (by simp)

/-- Mapping a monotone function over any filtered prefix of the naturals
yields a sorted list. -/
theorem sorted_map_filter_range {α : Type} [Preorder α] (n : Nat) (p : Nat → Bool)
    (f : Nat → α) (hf : Monotone f) :
    List.Sorted (fun a b => a ≤ b) (((List.range n).filter p).map f) := by
  have h1 : List.Pairwise (fun a b => a < b) ((List.range n).filter p) :=
    List.Pairwise.filter p (List.pairwise_lt_range n)
  rw [List.Sorted, List.pairwise_map]
  exact h1.imp (fun hab => hf hab.le)

/-- The last element of a list extended by two elements. -/
theorem getLast_append_two {α : Type} (l : List α) (a b : α) :
    (l ++ [a, b]).getLast? = some b := by
  have : l ++ [a, b] = (l ++ [a]) ++ [b] := by simp
  rw [this, List.getLast?_concat]

/-! Claim theorems. -/

/-- C3, counterexample: the claim states the ID test on the string
itself, but `looksLikeId` trims first, so the 16-character string made of
a space and 15 digits satisfies the code's predicate while the claim's
untrimmed predicate rejects it. -/
theorem C3_counterexample :
    looksLikeId " 123456789012345" = true ∧
    looksLikeIdSpec " 123456789012345" = false := by
  exact ⟨by decide, by decide⟩

/-- C3 as amended: for every string s, the looks-like-an-ID predicate
returns true iff the trimmed s matches the regular expression
`^[c~]?\d{15,}$` or the trimmed s is longer than 16 characters and purely
numeric; in particular it returns true for 123456789012345 and
c123456789012345 and false for general. -/
theorem C3_amended_theorem :
    (∀ s : String, looksLikeId s = looksLikeIdSpec (trimJs s)) ∧
    looksLikeId "123456789012345" = true ∧
    looksLikeId "c123456789012345" = true ∧
    looksLikeId "general" = false := by
  exact ⟨fun s => rfl, by decide, by decide, by decide⟩

/-- C9: `avgWordsPerMessage` equals `round(totalWords / totalMessages)`
(rounding half up) whenever `totalMessages` is non-zero, and equals 0
when `totalMessages` is 0; being defined by guarded total operations it
never raises a division-by-zero fault. -/
theorem C9_theorem (env : Env) (idx : String → Option String) (msgs : List Msg) :
    ((buildSummary env idx msgs).totalMessages = 0 →
      (buildSummary env idx msgs).avgWordsPerMessage = 0) ∧
    ((buildSummary env idx msgs).totalMessages ≠ 0 →
      ((buildSummary env idx msgs).avgWordsPerMessage : ℤ) =
        ⌊((buildSummary env idx msgs).totalWords : ℚ) /
          ((buildSummary env idx msgs).totalMessages : ℚ) + 1 / 2⌋) := by
  constructor
  · intro h
    simp only [buildSummary] at h ⊢
    rw [if_pos h]
  · intro h
    simp only [buildSummary] at h ⊢
    rw [if_neg h]
    exact jsRoundNat_eq_floor _ _ h

/-- C9 witness: a singleton two-word corpus has average 2 via the rounded
quotient, and the empty corpus has average 0. -/
theorem C9_witness :
    (((buildSummary env0 idx0 [mTwoWords]).avgWordsPerMessage : ℤ) =
      ⌊((buildSummary env0 idx0 [mTwoWords]).totalWords : ℚ) /
        ((buildSummary env0 idx0 [mTwoWords]).totalMessages : ℚ) + 1 / 2⌋) ∧
    (buildSummary env0 idx0 []).avgWordsPerMessage = 0 :=
  ⟨(C9_theorem env0 idx0 [mTwoWords]).2 (by decide),
   (C9_theorem env0 idx0 []).1 (by decide)⟩

/-- C2: `normalizeMessage` stores timestamp null when the raw timestamp
value is absent or does not parse to a valid date, and when it does
parse to instant t, stores exactly t minus 5 hours. The date parser (the
environment's date constructor) parses the empty string to an invalid
date. -/
theorem C2_theorem (parseDate : String → Option Int) (r : RawMsg)
    (h0 : parseDate "" = none) :
    ((∀ s, r.ts = some s → parseDate s = none →
        (normalizeMessage parseDate r).timestamp = none) ∧
      (r.ts = none → (normalizeMessage parseDate r).timestamp = none)) ∧
    (∀ s t, r.ts = some s → parseDate s = some t →
      (normalizeMessage parseDate r).timestamp = some (t - 5 * 60 * 60 * 1000)) := by
  refine ⟨⟨?_, ?_⟩, ?_⟩
  · intro s hs hp
    simp only [normalizeMessage, hs]
    by_cases he : (s == "") = true
    · rw [if_pos he]
    · rw [if_neg he, hp]
      rfl
  · intro hs
    simp only [normalizeMessage, hs]
  · intro s t hs hp
    have hne : ¬ (s == "") = true := by
      intro hb
      have hse : s = "" := by simpa using hb
      rw [hse, h0] at hp
      cases hp
    simp only [normalizeMessage, hs]
    rw [if_neg hne, hp]
    show some (t + TZ_OFFSET_MS) = some (t - 5 * 60 * 60 * 1000)
    norm_num [TZ_OFFSET_MS]
    omega

/-- C2 witness: the raw timestamp 2024-01-01T05:00:00Z (epoch instant
1704085200000) is stored as 1704067200000, exactly 5 hours earlier, and
an unparseable raw timestamp is stored as null. -/
theorem C2_witness :
    (normalizeMessage pdExample rawGood).timestamp = some 1704067200000 ∧
    (normalizeMessage pdExample rawBad).timestamp = none := by
  constructor
  · have h := (C2_theorem pdExample rawGood (by decide)).2 "2024-01-01T05:00:00Z"
      1704085200000 rfl (by decide)
    rw [h]
    norm_num
  · exact ((C2_theorem pdExample rawBad (by decide)).1).1 "not-a-date" rfl (by decide)

/-- C1, counterexample: a one-message corpus whose message has an
unparseable timestamp yields `totalMessages = 0` and `totalWords = 0`:
the message is not counted toward the totals, contrary to the claim. -/
theorem C1_counterexample :
    mNull.timestamp = none ∧ mNull.contents = "hello world" ∧
    (buildSummary env0 idx0 [mNull]).totalMessages = 0 ∧
    (buildSummary env0 idx0 [mNull]).totalWords = 0 :=
  ⟨rfl, rfl, by decide, by decide⟩

/-- C1 as amended: a message whose raw timestamp is unparseable
normalizes to timestamp null, and a null-timestamp message contributes
to nothing in the Summary: removing it leaves every statistic (totals,
temporal tables, channel rollups, word map) unchanged. -/
theorem C1_amended_theorem :
    (∀ (parseDate : String → Option Int) (r : RawMsg) (s : String),
      r.ts = some s → parseDate s = none →
      (normalizeMessage parseDate r).timestamp = none) ∧
    (∀ (env : Env) (idx : String → Option String) (pre post : List Msg) (m : Msg),
      m.timestamp = none →
      buildSummary env idx (pre ++ m :: post) = buildSummary env idx (pre ++ post)) := by
  constructor
  · intro pd r s hs hp
    simp only [normalizeMessage, hs]
    by_cases he : (s == "") = true
    · rw [if_pos he]
    · rw [if_neg he, hp]
      rfl
  · intro env idx pre post m h
    have hv : validTs m = false := by simp [validTs, h]
    have hf : (pre ++ m :: post).filter validTs = (pre ++ post).filter validTs := by
      rw [List.filter_append, List.filter_append, List.filter_cons, hv]
      simp
    simp only [buildSummary, hf]

/-- C1 witness: the concrete null-timestamp message normalizes to null
and is dropped from the aggregation without any other effect. -/
theorem C1_witness :
    mNull.timestamp = none ∧
    buildSummary env0 idx0 ([] ++ mNull :: []) = buildSummary env0 idx0 ([] ++ []) ∧
    (normalizeMessage pdExample rawBad).timestamp = none :=
  ⟨rfl, C1_amended_theorem.2 env0 idx0 [] [] mNull rfl,
   C1_amended_theorem.1 pdExample rawBad "not-a-date" rfl (by decide)⟩

/-- C7: a per-file exception (read or JSON-parse failure) in the metadata
pass or in the message pass skips exactly that file: the pipeline output
over the remaining files is identical, and a Summary is always produced
(the pipeline is a total function). -/
theorem C7_theorem (env : Env) (parseDate : String → Option Int)
    (metas1 metas2 : List (String × Except Unit MetaRec))
    (msgs1 msgs2 : List (String × Except Unit (List RawMsg)))
    (cp1 cp2 : String) (e1 e2 : Unit) (ups : List (String × String)) :
    parsePipeline env parseDate (metas1 ++ (cp1, Except.error e1) :: metas2)
        (msgs1 ++ msgs2) ups =
      parsePipeline env parseDate (metas1 ++ metas2) (msgs1 ++ msgs2) ups ∧
    parsePipeline env parseDate (metas1 ++ metas2)
        (msgs1 ++ (cp2, Except.error e2) :: msgs2) ups =
      parsePipeline env parseDate (metas1 ++ metas2) (msgs1 ++ msgs2) ups := by
  constructor
  · have hm : processMetas (metas1 ++ (cp1, Except.error e1) :: metas2) =
        processMetas (metas1 ++ metas2) := by
      unfold processMetas
      rw [List.foldl_append, List.foldl_append, List.foldl_cons]
    simp only [parsePipeline, hm]
  · have hm : ∀ st : MetaState,
        processMsgFiles parseDate st (msgs1 ++ (cp2, Except.error e2) :: msgs2) =
          processMsgFiles parseDate st (msgs1 ++ msgs2) := by
      intro st
      unfold processMsgFiles
      rw [List.foldl_append, List.foldl_append, List.foldl_cons]
    simp only [parsePipeline, hm]

/-- Element-level agreement of the code fallback and the amended
specification fallback, for an arbitrary segment list. -/
theorem fallback_elem_core (p : String) (parts : List String) :
    (if lowerStr (parts.getLastD "") == "messages.json" then
       some (p,
         if decide (2 ≤ parts.length) then joinSlash parts.dropLast
         else if parts.headD "" == "" then "unknown" else parts.headD "")
     else none) =
    (if lowerStr (parts.getLastD "") == "messages.json" then
       some (p,
         if decide (2 ≤ parts.length) then joinSlash parts.dropLast
         else parts.getLastD "")
     else none) := by
  match parts with
  | [] =>
    rw [show (lowerStr (([] : List String).getLastD "") == "messages.json") = false from
      by decide]
    simp
  | [x] =>
    by_cases hx : (x == "") = true
    · have hx0 : x = "" := by simpa using hx
      subst hx0
      rw [show (lowerStr (([""] : List String).getLastD "") == "messages.json") = false from
        by decide]
      simp
    · have hgl : (([x] : List String).getLastD "") = x := rfl
      have hlen : (decide (2 ≤ ([x] : List String).length)) = false := rfl
      rw [hgl, hlen]
      simp [hx]
  | x :: y :: rest =>
    have hlen : (decide (2 ≤ (x :: y :: rest).length)) = true := by simp
    rw [hlen]
    simp

/-- The two fallback formulations agree on every input file list. -/
theorem fallback_eq_amended (paths : List String) :
    fallbackCandidates paths = fallbackCandidatesSpecAmended paths := by
  unfold fallbackCandidates fallbackCandidatesSpecAmended
  exact congrArg (fun f => List.filterMap f paths)
    (funext fun path => fallback_elem_core (normalizePath path) (segsOf (normalizePath path)))

/-- C8, counterexample: with the single input file `a/b/MESSAGES.JSON` the
primary scan yields zero candidates and the code's fallback accepts the
file (its name only case-insensitively equals `messages.json`), while the
claim's exactly-named fallback scan yields no candidate. -/
theorem C8_counterexample :
    primaryCandidates ["a/b/MESSAGES.JSON"] = [] ∧
    messageCandidates ["a/b/MESSAGES.JSON"] = [("a/b/MESSAGES.JSON", "a/b")] ∧
    fallbackCandidatesSpec ["a/b/MESSAGES.JSON"] = [] :=
  ⟨by decide, by decide, by decide⟩

/-- C8 as amended: when the primary classification yields zero message
candidates, the classifier falls back to the permissive secondary scan
that treats any file whose name case-insensitively equals
`messages.json`, anywhere, as a message candidate, with its parent
directory as the channel path when the path has at least two segments
and the file name itself as the channel path for a root-level file. -/
theorem C8_amended_theorem (paths : List String) (h : primaryCandidates paths = []) :
    messageCandidates paths = fallbackCandidatesSpecAmended paths := by
  unfold messageCandidates
  rw [h]
  exact fallback_eq_amended paths

/-- C8 witness: a deeper path with an uppercase transcript name triggers
the fallback and lands in the amended characterization. -/
theorem C8_witness :
    messageCandidates ["a/b/c/MESSAGES.JSON"] =
      fallbackCandidatesSpecAmended ["a/b/c/MESSAGES.JSON"] :=
  C8_amended_theorem ["a/b/c/MESSAGES.JSON"] (by decide)

/-- C4, counterexample: the index maps channel id 42 to a name, but
because that name is itself ID-shaped and the channel has no guild id,
the byChannel row's channelName is null, not the index name the claim
promises. -/
theorem C4_counterexample :
    idxIdName "42" = some "123456789012345678" ∧
    looksLikeId "123456789012345678" = true ∧
    (buildSummary env0 idxIdName [mCh42]).byChannel =
      [{ key := "42", channelName := none, guildId := none, count := 1 }] :=
  ⟨rfl, by decide, by decide⟩

/-- C4 as amended: when the global index maps a channel's key (directly
or after stripping a non-digit prefix, as `idFromIndex` does) to a name,
that name is used as the row's channelName in preference to the
per-message default — except that for a channel with no truthy guild id
an ID-shaped index name is suppressed to null. -/
theorem C4_amended_theorem (env : Env) (idx : String → Option String) (msgs : List Msg)
    (k n : String) (m : Msg)
    (h1 : (msgs.filter validTs).find? (fun x => chanKey x == k) = some m)
    (h2 : idFromIndex idx k = some n) :
    ((buildSummary env idx msgs).byChannel.find? (fun r => r.key == k)).map
      (fun r => r.channelName) =
      some (if !(truthyS m.guildId) && looksLikeId n then none else some n) := by
  have hbc : (buildSummary env idx msgs).byChannel =
      byChannelFold idx (msgs.filter validTs) := rfl
  rw [hbc, byChannel_find, h1]
  show some (resolveDisplay idx m) = _
  have hkeq : chanKey m = k := by
    have hp := List.find?_some (p := fun (x : Msg) => chanKey x == k) h1
    simpa using hp
  have hd0 : d0Of idx (chanKey m) m.channelName = some n := by
    unfold d0Of
    rw [hkeq, h2]
  simp only [resolveDisplay, hd0]
  congr 1
  by_cases hn : (n == "") = true
  · have hne : n = "" := by simpa using hn
    subst hne
    have hl0 : looksLikeId "" = false := by decide
    simp [truthyS, hl0]
  · have hnf : (n == "") = false := by simpa using hn
    simp [truthyS, hnf]

/-- C4 witness: the claim's own example, an index naming channel 42
team-chat overriding the per-message default name 42. -/
theorem C4_witness :
    ((buildSummary env0 idxTeam [mCh42]).byChannel.find? (fun r => r.key == "42")).map
      (fun r => r.channelName) = some (some "team-chat") := by
  have h := C4_amended_theorem env0 idxTeam [mCh42] "42" "team-chat" mCh42
    (by decide) (by decide)
  rw [h]
  decide

/-- C5: for a channel with no truthy guild id whose every available
display-name candidate (index name falling back to the per-message name,
as the engine computes it) is ID-shaped, the byChannel row's channelName
is null — never the raw ID string. -/
theorem C5_theorem (env : Env) (idx : String → Option String) (msgs : List Msg)
    (k : String) (m : Msg)
    (h1 : (msgs.filter validTs).find? (fun x => chanKey x == k) = some m)
    (h2 : truthyS m.guildId = false)
    (h3 : ∀ s, d0Of idx k m.channelName = some s → looksLikeId s = true) :
    ((buildSummary env idx msgs).byChannel.find? (fun r => r.key == k)).map
      (fun r => r.channelName) = some none := by
  have hbc : (buildSummary env idx msgs).byChannel =
      byChannelFold idx (msgs.filter validTs) := rfl
  rw [hbc, byChannel_find, h1]
  show some (resolveDisplay idx m) = some none
  have hkeq : chanKey m = k := by
    have hp := List.find?_some (p := fun (x : Msg) => chanKey x == k) h1
    simpa using hp
  have hres : resolveDisplay idx m = none := by
    simp only [resolveDisplay, hkeq]
    cases hd : d0Of idx k m.channelName with
    | none => simp [truthyS]
    | some s =>
      have hls := h3 s hd
      have hsne : (s == "") = false := by
        by_cases hb : (s == "") = true
        · have hs0 : s = "" := by simpa using hb
          rw [hs0] at hls
          exact absurd hls (by decide)
        · simpa using hb
      have hcond : (!(truthyS m.guildId) && truthyS (some s) &&
          looksLikeId ((some s).getD "")) = true := by
        rw [h2]
        simp [truthyS, hsne, hls]
      rw [if_pos hcond]
  rw [hres]

/-- C5 witness: a DM channel whose only candidate name is its 18-digit id
gets channelName null. -/
theorem C5_witness :
    ((buildSummary env0 idx0 [mDmId]).byChannel.find?
      (fun r => r.key == "123456789012345678")).map (fun r => r.channelName) =
      some none := by
  apply C5_theorem env0 idx0 [mDmId] "123456789012345678" mDmId (by decide) (by decide)
  intro s hs
  have hval : d0Of idx0 "123456789012345678" mDmId.channelName =
      some "123456789012345678" := rfl
  have hsid : s = "123456789012345678" := by
    have h4 := hval.symm.trans hs
    have h5 : "123456789012345678" = s := by simpa using h4
    exact h5.symm
  rw [hsid]
  decide

/-- C10, counterexample: the message `:aa: x:aa:x` has 1 standalone
occurrence of `:aa:` (double would be 2), yet the shared map's count —
the count topEmojis reports — is 3, because the emoji-regex scan also
matches the embedded occurrence. -/
theorem C10_counterexample :
    (buildSummary env0 idx0 [mEmojiMixed]).wordMap ":aa:" = 3 ∧
    (tokenize mEmojiMixed.contents).count ":aa:" = 1 :=
  ⟨by decide, by decide⟩

/-- C10 as amended: the shared frequency map counts an emoji-shaped key
once per standalone token occurrence (tokenization pass) plus once per
emoji-regex match (emoji scan); when every regex match is a standalone
token occurrence, the reported count is exactly double the standalone
count. -/
theorem C10_amended_theorem (env : Env) (idx : String → Option String) (msgs : List Msg)
    (e : String) (he : emojiShaped e = true)
    (h : ∀ m ∈ msgs.filter validTs,
      (scanLower m.contents).count e = (tokenize m.contents).count e) :
    (buildSummary env idx msgs).wordMap e =
      2 * ((msgs.filter validTs).map (fun m => (tokenize m.contents).count e)).sum := by
  have hwm : (buildSummary env idx msgs).wordMap e =
      wordMapCount (msgs.filter validTs) e := rfl
  rw [hwm]
  unfold wordMapCount
  have hstop : STOPWORDS.contains e = false := emojiShaped_not_stopword e he
  have hif : ∀ c : Nat, (if STOPWORDS.contains e then 0 else c) = c := by
    intro c
    rw [hstop]
    simp
  have hmap : (msgs.filter validTs).map (fun m =>
      (if STOPWORDS.contains e then 0 else (tokenize m.contents).count e)
        + (scanLower m.contents).count e) =
      (msgs.filter validTs).map (fun m => 2 * ((tokenize m.contents).count e)) := by
    apply List.map_congr_left
    intro m hm
    rw [hif, h m hm]
    omega
  rw [hmap, List.sum_map_mul_left]

/-- C10 witness: a corpus whose emoji occurrences are all standalone has
its map count equal to exactly twice the standalone count. -/
theorem C10_witness :
    (buildSummary env0 idx0 [mEmojiOnce]).wordMap ":aa:" =
      2 * (([mEmojiOnce].filter validTs).map
        (fun m => (tokenize m.contents).count ":aa:")).sum :=
  C10_amended_theorem env0 idx0 [mEmojiOnce] ":aa:" (by decide) (by decide)

/-- The `parseZip` message-loop percent formula is monotone in the file
index. -/
theorem zip_percent_mono (n : Nat) : Monotone (fun i => 10 + 70 * (i + 1) / n) := by
  intro a b hab
  have h1 : 70 * (a + 1) ≤ 70 * (b + 1) := by omega
  exact Nat.add_le_add_left (Nat.div_le_div_right h1) 10

/-- Every `parseZip` message-loop report lies between 10 and 80. -/
theorem zip_percent_mem (n : Nat) (rep : Nat → Bool) :
    ∀ x ∈ zipLoopPercents n rep, 10 ≤ x ∧ x ≤ 80 := by
  intro x hx
  unfold zipLoopPercents at hx
  rcases List.mem_map.mp hx with ⟨i, hi, rfl⟩
  have hilt : i < n := List.mem_range.mp (List.mem_of_mem_filter hi)
  have hnpos : 0 < n := Nat.lt_of_le_of_lt (Nat.zero_le i) hilt
  refine ⟨Nat.le_add_right 10 _, ?_⟩
  have h1 : 70 * (i + 1) ≤ 70 * n := by omega
  have h2 : 70 * (i + 1) / n ≤ 70 * n / n := Nat.div_le_div_right h1
  rw [Nat.mul_div_cancel _ hnpos] at h2
  omega

/-- The `parseZip` progress trace is non-decreasing. -/
theorem zip_trace_sorted (n : Nat) (rep : Nat → Bool) :
    List.Sorted (fun a b => a ≤ b) (parseZipTrace n rep) := by
  have hmid : List.Pairwise (fun a b => a ≤ b) (zipLoopPercents n rep) :=
    sorted_map_filter_range n _ _ (zip_percent_mono n)
  have hmem := zip_percent_mem n rep
  show List.Pairwise (fun a b => a ≤ b)
    ([0, 5, 10] ++ (zipLoopPercents n rep ++ [80, 95]))
  refine List.pairwise_append.mpr ⟨?_, List.pairwise_append.mpr ⟨hmid, ?_, ?_⟩, ?_⟩
  · decide
  · decide
  · intro a ha b hb
    have h80 := (hmem a ha).2
    have hb2 : b = 80 ∨ b = 95 := by simpa using hb
    rcases hb2 with rfl | rfl <;> omega
  · intro a ha b hb
    have ha10 : a ≤ 10 := by
      have ha2 : a = 0 ∨ a = 5 ∨ a = 10 := by simpa using ha
      rcases ha2 with rfl | rfl | rfl <;> omega
    rcases List.mem_append.mp hb with h | h
    · have := (hmem b h).1
      omega
    · have hb2 : b = 80 ∨ b = 95 := by simpa using h
      rcases hb2 with rfl | rfl <;> omega

/-- The last `parseZip` report is the finalizing 95. -/
theorem zip_trace_last (n : Nat) (rep : Nat → Bool) :
    (parseZipTrace n rep).getLast? = some 95 := by
  show ([0, 5, 10] ++ (zipLoopPercents n rep ++ [80, 95])).getLast? = some 95
  rw [List.getLast?_append, List.getLast?_append]
  rfl

/-- The `parseFileList` metadata-loop percent formula is monotone. -/
theorem fl_meta_mono (mT : Nat) :
    Monotone (fun i : Nat => min 5 ((5 * ((i : ℚ) + 1)) / (mT : ℚ))) := by
  intro a b hab
  apply min_le_min le_rfl
  rcases Nat.eq_zero_or_pos mT with h0 | hpos
  · subst h0
    simp
  · have hc : (0 : ℚ) < mT := by exact_mod_cast hpos
    apply (div_le_div_iff_of_pos_right hc).mpr
    have hcast : (a : ℚ) ≤ b := by exact_mod_cast hab
    linarith

/-- Every `parseFileList` metadata-loop report lies between 0 and 5. -/
theorem fl_meta_mem (mT : Nat) (rep : Nat → Bool) :
    ∀ x ∈ flMetaPercents mT rep, 0 ≤ x ∧ x ≤ 5 := by
  intro x hx
  unfold flMetaPercents at hx
  rcases List.mem_map.mp hx with ⟨i, hi, rfl⟩
  refine ⟨le_min (by norm_num) (div_nonneg (by positivity) (Nat.cast_nonneg mT)), min_le_left _ _⟩

/-- The `parseFileList` message-loop percent formula is monotone. -/
theorem fl_msg_mono (nT : Nat) :
    Monotone (fun i : Nat => (5 : ℚ) + ((80 * (i + 1) / nT : ℕ) : ℚ)) := by
  intro a b hab
  have h1 : (80 * (a + 1) / nT : ℕ) ≤ 80 * (b + 1) / nT := Nat.div_le_div_right (by omega)
  have h2 : ((80 * (a + 1) / nT : ℕ) : ℚ) ≤ ((80 * (b + 1) / nT : ℕ) : ℚ) := by
    exact_mod_cast h1
  linarith

/-- Every `parseFileList` message-loop report lies between 5 and 85. -/
theorem fl_msg_mem (nT : Nat) (rep : Nat → Bool) :
    ∀ x ∈ flMsgPercents nT rep, 5 ≤ x ∧ x ≤ 85 := by
  intro x hx
  unfold flMsgPercents at hx
  rcases List.mem_map.mp hx with ⟨i, hi, rfl⟩
  have hilt : i < nT := List.mem_range.mp (List.mem_of_mem_filter hi)
  have hnpos : 0 < nT := Nat.lt_of_le_of_lt (Nat.zero_le i) hilt
  have hnat : (80 * (i + 1) / nT : ℕ) ≤ 80 := by
    have h1 : 80 * (i + 1) ≤ 80 * nT := by omega
    have h2 : 80 * (i + 1) / nT ≤ 80 * nT / nT := Nat.div_le_div_right h1
    rw [Nat.mul_div_cancel _ hnpos] at h2
    omega
  constructor
  · have h0 : (0 : ℚ) ≤ ((80 * (i + 1) / nT : ℕ) : ℚ) := by positivity
    linarith
  · have h80 : ((80 * (i + 1) / nT : ℕ) : ℚ) ≤ 80 := by exact_mod_cast hnat
    linarith

/-- The `parseFileList` progress trace is non-decreasing. -/
theorem fl_trace_sorted (mT nT : Nat) (repM repN : Nat → Bool) :
    List.Sorted (fun a b => a ≤ b) (parseFileListTrace mT nT repM repN) := by
  have hmidM : List.Pairwise (fun a b => a ≤ b) (flMetaPercents mT repM) := by
    unfold flMetaPercents
    exact sorted_map_filter_range mT _ _ (fl_meta_mono mT)
  have hmidN : List.Pairwise (fun a b => a ≤ b) (flMsgPercents nT repN) := by
    unfold flMsgPercents
    exact sorted_map_filter_range nT _ _ (fl_msg_mono nT)
  have hmemM := fl_meta_mem mT repM
  have hmemN := fl_msg_mem nT repN
  show List.Pairwise (fun a b => a ≤ b)
    (((([0] ++ flMetaPercents mT repM) ++ [5]) ++ flMsgPercents nT repN) ++ [85])
  refine List.pairwise_append.mpr ⟨?_, List.pairwise_singleton _ _, ?_⟩
  · refine List.pairwise_append.mpr ⟨?_, hmidN, ?_⟩
    · refine List.pairwise_append.mpr ⟨?_, List.pairwise_singleton _ _, ?_⟩
      · refine List.pairwise_append.mpr ⟨List.pairwise_singleton _ _, hmidM, ?_⟩
        intro a ha b hb
        have ha0 : a = 0 := by simpa using ha
        subst ha0
        exact (hmemM b hb).1
      · intro a ha b hb
        have hb5 : b = 5 := by simpa using hb
        subst hb5
        rcases List.mem_append.mp ha with h | h
        · have ha0 : a = 0 := by simpa using h
          subst ha0
          norm_num
        · exact (hmemM a h).2
    · intro a ha b hb
      have hbN := (hmemN b hb).1
      rcases List.mem_append.mp ha with h | h
      · rcases List.mem_append.mp h with h2 | h2
        · have ha0 : a = 0 := by simpa using h2
          subst ha0
          linarith
        · have := (hmemM a h2).2
          linarith
      · have ha5 : a = 5 := by simpa using h
        subst ha5
        linarith
  · intro a ha b hb
    have hb85 : b = 85 := by simpa using hb
    subst hb85
    rcases List.mem_append.mp ha with h | h
    · rcases List.mem_append.mp h with h2 | h2
      · rcases List.mem_append.mp h2 with h3 | h3
        · have ha0 : a = 0 := by simpa using h3
          subst ha0
          norm_num
        · have := (hmemM a h3).2
          linarith
      · have ha5 : a = 5 := by simpa using h2
        subst ha5
        norm_num
    · have := (hmemN a h).2
      linarith

/-- The last `parseFileList` report is the stats-building 85. -/
theorem fl_trace_last (mT nT : Nat) (repM repN : Nat → Bool) :
    (parseFileListTrace mT nT repM repN).getLast? = some 85 := by
  unfold parseFileListTrace
  rw [List.getLast?_append]
  rfl

/-- C6, counterexample: in a one-message-file `parseZip` run whose report
points all fire, the final `onProgress` percent is 95, not the 100 the
claim requires. -/
theorem C6_counterexample :
    (parseZipTrace 1 (fun _ => true)).getLast? = some 95 ∧
    ¬ ((parseZipTrace 1 (fun _ => true)).getLast? = some 100) :=
  ⟨by decide, by decide⟩

/-- C6 as amended: in every run of either parse pipeline the sequence of
percent values passed to onProgress is non-decreasing, and the final
invocation always passes 95 (`parseZip`) respectively 85
(`parseFileList`) — never 100. -/
theorem C6_amended_theorem (n : Nat) (rep : Nat → Bool) (mT nT : Nat)
    (repM repN : Nat → Bool) :
    (List.Sorted (fun a b => a ≤ b) (parseZipTrace n rep) ∧
      (parseZipTrace n rep).getLast? = some 95) ∧
    (List.Sorted (fun a b => a ≤ b) (parseFileListTrace mT nT repM repN) ∧
      (parseFileListTrace mT nT repM repN).getLast? = some 85) :=
  ⟨⟨zip_trace_sorted n rep, zip_trace_last n rep⟩,
   ⟨fl_trace_sorted mT nT repM repN, fl_trace_last mT nT repM repN⟩⟩

end DiscordAnalyzer
